import Mathlib

/-!
# Verification of the backscrub streaming pipeline core

Shallow embedding of the pixel algorithms, the mask-engine mailboxes and
worker loop, the frame-rate throttle and the loopback-device lifecycle of
the backscrub video pipeline, together with theorems settling the frozen
specification claims.  Each definition is translated from the C++ source
(deepseg main file and videoio/loopback.cc); machine bytes are modelled as
`Nat` (all byte values stay below 256 on real inputs, and every arithmetic
operation in the source is performed on widened `int` values before the
final byte store, so no wrap-around occurs).
-/

namespace Backscrub

/-! ## Pixels and alpha blending (`alpha_blend`, main file lines 110-136)

A 3-channel pixel is a triple of byte values; a mask sample is one byte.
`alpha_blend` walks the three buffers pixel by pixel; for each pixel the
weights are `aw = mask`, `bw = 255 - aw`, and each channel is blended as
`(a*aw + b*bw) / 255` with C integer (truncating) division.  The source
asserts equal geometry of the three inputs; the embedding consumes the
buffers in lock-step and stops at the shortest, which coincides with the
source behaviour on equal-length inputs. -/

abbrev Pix := Nat × Nat × Nat

/-- One blended channel byte: `(a*aw + b*bw)/255` with `bw = 255 - aw`
(line 131 of the main file, identical for the three channels). -/
def blendByte (a b aw : Nat) : Nat :=
  (a * aw + b * (255 - aw)) / 255

/-- One blended pixel (lines 129-133): weight `aw` is the mask byte,
applied channel-wise. -/
def blendPix (a b : Pix) (aw : Nat) : Pix :=
  (blendByte a.1 b.1 aw, blendByte a.2.1 b.2.1 aw, blendByte a.2.2 b.2.2 aw)

/-- `alpha_blend(srca, srcb, mask)` (lines 110-136): per-pixel blend of the
two 3-channel buffers using the 1-channel mask, `255 => srca, 0 => srcb`
(the source's own comment, line 111). -/
def alpha_blend : List Pix → List Pix → List Nat → List Pix
  | a :: as, b :: bs, m :: ms => blendPix a b m :: alpha_blend as bs ms
  | _, _, _ => []

theorem blendByte_w255 (a b : Nat) : blendByte a b 255 = a := by
  simp [blendByte]

theorem blendByte_w0 (a b : Nat) : blendByte a b 0 = b := by
  simp [blendByte]

theorem alpha_blend_all_255 (a b : List Pix) (m : List Nat)
    (hab : a.length = b.length) (ham : a.length = m.length)
    (h : ∀ x ∈ m, x = 255) : alpha_blend a b m = a := by
  induction a generalizing b m with
  | nil => cases b <;> cases m <;> simp [alpha_blend]
  | cons p as ih =>
    cases b with
    | nil => simp at hab
    | cons q bs =>
      cases m with
      | nil => simp at ham
      | cons w ms =>
        have hw : w = 255 := h w (List.mem_cons_self w ms)
        have hrest : ∀ x ∈ ms, x = 255 := fun x hx => h x (List.mem_cons_of_mem w hx)
        simp only [alpha_blend, hw, List.cons.injEq]
        refine ⟨?_, ih bs ms (by simpa using hab) (by simpa using ham) hrest⟩
        cases p with
        | mk p1 p23 =>
          cases p23 with
          | mk p2 p3 => simp [blendPix, blendByte_w255]

theorem alpha_blend_all_0 (a b : List Pix) (m : List Nat)
    (hab : a.length = b.length) (ham : a.length = m.length)
    (h : ∀ x ∈ m, x = 0) : alpha_blend a b m = b := by
  induction a generalizing b m with
  | nil =>
    cases b with
    | nil => simp [alpha_blend]
    | cons q bs => simp at hab
  | cons p as ih =>
    cases b with
    | nil => simp at hab
    | cons q bs =>
      cases m with
      | nil => simp at ham
      | cons w ms =>
        have hw : w = 0 := h w (List.mem_cons_self w ms)
        have hrest : ∀ x ∈ ms, x = 0 := fun x hx => h x (List.mem_cons_of_mem w hx)
        simp only [alpha_blend, hw, List.cons.injEq]
        refine ⟨?_, ih bs ms (by simpa using hab) (by simpa using ham) hrest⟩
        cases q with
        | mk q1 q23 =>
          cases q23 with
          | mk q2 q3 => simp [blendPix, blendByte_w0]

/-- C1 (counterexample): the claim states that a mask of all 255 makes
`alpha_blend(bg, F, M)` return the foreground `F`.  On the code, mask 255
selects the FIRST argument (`255 => srca`, the background at the call
site): with `bg = (255,255,255)`, `F = (0,0,0)` and `M = [255]` the result
is `bg`, not `F`. -/
theorem alpha_blend_mask255_not_foreground :
    alpha_blend [((255 : Nat), 255, 255)] [((0 : Nat), 0, 0)] [255]
      = [((255 : Nat), 255, 255)]
    ∧ [((255 : Nat), 255, 255)] ≠ [((0 : Nat), 0, 0)] := by
  constructor
  · rfl
  · decide

/-- C1 (amended): `alpha_blend(srca, srcb, mask)` computes, per pixel and
channel, `output = (srca_channel * mask + srcb_channel * (255 - mask)) / 255`
with truncating integer division — the mask weights the FIRST argument
(at the call site the background), matching the source comment
`255 => srca, 0 => srcb`.  Consequently, for buffers of equal geometry,
a mask of all 255 returns the first argument exactly and a mask of all 0
returns the second argument exactly. -/
theorem alpha_blend_weights (a b : List Pix) (m : List Nat)
    (hab : a.length = b.length) (ham : a.length = m.length) :
    (∀ (p q : Pix) (w : Nat) (as bs : List Pix) (ms : List Nat),
        alpha_blend (p :: as) (q :: bs) (w :: ms) =
          ((p.1 * w + q.1 * (255 - w)) / 255,
           (p.2.1 * w + q.2.1 * (255 - w)) / 255,
           (p.2.2 * w + q.2.2 * (255 - w)) / 255) :: alpha_blend as bs ms)
    ∧ ((∀ x ∈ m, x = 255) → alpha_blend a b m = a)
    ∧ ((∀ x ∈ m, x = 0) → alpha_blend a b m = b) := by
  refine ⟨fun p q w as bs ms => rfl, ?_, ?_⟩
  · exact alpha_blend_all_255 a b m hab ham
  · exact alpha_blend_all_0 a b m hab ham

/-- Witness for `alpha_blend_weights` at a concrete input. -/
theorem alpha_blend_weights_witness :
    ([((10 : Nat), 20, 30)] : List Pix).length = ([((40 : Nat), 50, 60)] : List Pix).length
    ∧ ([((10 : Nat), 20, 30)] : List Pix).length = ([(0 : Nat)] : List Nat).length
    ∧ alpha_blend [((10 : Nat), 20, 30)] [((40 : Nat), 50, 60)] [(0 : Nat)]
        = [((40 : Nat), 50, 60)] :=
  ⟨rfl, rfl,
    (alpha_blend_weights [((10 : Nat), 20, 30)] [((40 : Nat), 50, 60)] [(0 : Nat)]
      rfl rfl).2.2 (by decide)⟩

/-! ## MaskEngine: the `CalcMask` class (main file lines 161-287)

Frames and masks are byte buffers.  The shared mutable state of `CalcMask`
is the two single-slot mailboxes plus the thread-state flag; the pointer
pairs (`frame_next`/`frame_current`, `mask_current`/`mask_out`) are
modelled by named slots whose contents are exchanged on a swap, which is
exactly what the source's pointer swap achieves.  `clone()` takes a byte
copy across the mailbox boundary; on buffer values a copy is the value
itself. -/

abbrev Frame := List Nat
abbrev Mask := List Nat

inductive ThreadState where
  | RUNNING
  | DONE
deriving DecidableEq

structure CalcMask where
  state : ThreadState
  new_frame : Bool
  new_mask : Bool
  frame_next : Frame
  frame_current : Frame
  mask_current : Mask
  mask_out : Mask
deriving DecidableEq

/-- `set_input_frame` (lines 273-278): under `lock_frame`, clone the
caller's frame into the `frame_next` slot, raise `new_frame` and notify.
It is a total state transformation: it completes regardless of whether a
previous frame is still pending (never blocks waiting for the worker),
overwriting the pending slot. -/
def set_input_frame (c : CalcMask) (f : Frame) : CalcMask :=
  { c with frame_next := f, new_frame := true }

/-- `get_output_mask` (lines 280-286): if `new_mask` is raised, copy the
`mask_out` slot into the caller's buffer under `lock_mask` and clear the
flag; otherwise do nothing.  Returns the caller's buffer content after the
call together with the new engine state. -/
def get_output_mask (c : CalcMask) (out : Mask) : Mask × CalcMask :=
  if c.new_mask then (c.mask_out, { c with new_mask := false }) else (out, c)

/-- The destructor's stop signal (lines 262-267): set the state flag to
DONE, raise `new_frame` and notify the condition variable — an
unconditional wake with no real frame submission. -/
def signalStop (c : CalcMask) : CalcMask :=
  { c with state := .DONE, new_frame := true }

/-- Program points of the worker loop `run()` (lines 184-215):
`checkState` is the `while(RUNNING == state)` loop head, `waitFrame` the
wait on `condition_new_frame`, `inferFrame` the `bs_maskgen_process`
call, `publishMask` the output-mailbox swap. -/
inductive WorkerPC where
  | checkState
  | waitFrame
  | inferFrame
  | publishMask
  | exited
deriving DecidableEq

/-- Observable actions of the worker, recorded in order. -/
inductive WorkerAct where
  | consumedFrame
  | inferred
  | published
deriving DecidableEq

structure WorkerSys where
  cm : CalcMask
  pc : WorkerPC
  acts : List WorkerAct
deriving DecidableEq

/-- One step of the worker thread `run()` (lines 184-215), parameterized
by the opaque inference collaborator `infer` (`bs_maskgen_process`, which
writes its result into the `mask_current` buffer).  At `waitFrame` with no
pending frame the worker stays blocked on the condition variable; with a
pending frame it clears the flag and swaps the `frame_next`/`frame_current`
slots (lines 193-200).  At `publishMask` it swaps `mask_current`/`mask_out`
and raises `new_mask` (lines 208-212). -/
def workerStep (infer : Frame → Mask) (s : WorkerSys) : WorkerSys :=
  match s.pc with
  | .checkState =>
      if s.cm.state = .RUNNING then { s with pc := .waitFrame }
      else { s with pc := .exited }
  | .waitFrame =>
      if s.cm.new_frame then
        { s with
          cm := { s.cm with
                  new_frame := false,
                  frame_next := s.cm.frame_current,
                  frame_current := s.cm.frame_next },
          pc := .inferFrame,
          acts := s.acts ++ [.consumedFrame] }
      else s
  | .inferFrame =>
      { s with
        cm := { s.cm with mask_current := infer s.cm.frame_current },
        pc := .publishMask,
        acts := s.acts ++ [.inferred] }
  | .publishMask =>
      { s with
        cm := { s.cm with
                mask_out := s.cm.mask_current,
                mask_current := s.cm.mask_out,
                new_mask := true },
        pc := .checkState,
        acts := s.acts ++ [.published] }
  | .exited => s

/-- Iterated worker steps. -/
def runWorker (infer : Frame → Mask) : Nat → WorkerSys → WorkerSys
  | 0, s => s
  | n + 1, s => runWorker infer n (workerStep infer s)

/-- C2 (counterexample): worker blocked waiting for a frame (concrete
buffers), destructor signals stop and wakes it with no frame submission.
The claim says the worker exits before touching any frame and never starts
another inference; on the code the woken worker consumes the artificial
pending flag, runs one more inference and publishes its mask before the
loop-head flag check lets it exit. -/
theorem worker_infer_after_stop :
    (runWorker (fun f => f) 4
        ⟨signalStop ⟨.RUNNING, false, false, [1], [2], [3], [4]⟩, .waitFrame, []⟩).pc
      = .exited
    ∧ (runWorker (fun f => f) 4
        ⟨signalStop ⟨.RUNNING, false, false, [1], [2], [3], [4]⟩, .waitFrame, []⟩).acts
      = [.consumedFrame, .inferred, .published]
    ∧ [WorkerAct.consumedFrame, .inferred, .published] ≠ [] := by
  refine ⟨rfl, rfl, by decide⟩

/-- C2 (amended): after the stop signal and unconditional wake, the
blocked worker exits within four steps without any real frame submission
and without waiting for another frame, but only after performing exactly
one further buffer swap, inference (on the stale `frame_next` buffer) and
mask publication; the stop flag is only honoured at the loop head, not
immediately after waking. -/
theorem worker_stop_exits_after_one_inference (c : CalcMask) (infer : Frame → Mask) :
    (runWorker infer 4 ⟨signalStop c, .waitFrame, []⟩).pc = .exited
    ∧ (runWorker infer 4 ⟨signalStop c, .waitFrame, []⟩).acts
        = [.consumedFrame, .inferred, .published]
    ∧ (runWorker infer 4 ⟨signalStop c, .waitFrame, []⟩).cm.mask_out
        = infer c.frame_next := by
  simp [runWorker, workerStep, signalStop]

/-- C6: `get_output_mask` called when no inference has completed since the
last fetch (`new_mask` is down) leaves the caller's buffer byte-for-byte
unchanged and does not modify the engine state; being a total function of
the current state, it returns immediately without blocking. -/
theorem get_output_mask_not_ready (c : CalcMask) (out : Mask)
    (h : c.new_mask = false) :
    get_output_mask c out = (out, c) := by
  simp [get_output_mask, h]

/-- Witness for `get_output_mask_not_ready` at a concrete state. -/
theorem get_output_mask_not_ready_witness :
    (CalcMask.mk .RUNNING false false [] [] [] [9]).new_mask = false
    ∧ get_output_mask (CalcMask.mk .RUNNING false false [] [] [] [9]) [7]
        = ([7], CalcMask.mk .RUNNING false false [] [] [] [9]) :=
  ⟨rfl, get_output_mask_not_ready (CalcMask.mk .RUNNING false false [] [] [] [9]) [7] rfl⟩

/-- C7: the input mailbox is latest-frame-wins.  Submitting `f1` then `f2`
before the worker wakes leaves the engine in exactly the state of
submitting `f2` alone (`f1` is dropped, never queued and leaves no trace);
`set_input_frame` is a total state transformation, so it completes without
blocking even when a previous frame is pending.  At its next wake the
worker consumes exactly one frame, namely `f2` (which becomes
`frame_current`, the buffer handed to inference), lowers the pending flag,
and an immediately following wait would block again (no second frame is
observed). -/
theorem set_input_frame_latest_wins (c : CalcMask) (f1 f2 : Frame)
    (infer : Frame → Mask) (acts : List WorkerAct) :
    set_input_frame (set_input_frame c f1) f2 = set_input_frame c f2
    ∧ (workerStep infer ⟨set_input_frame (set_input_frame c f1) f2, .waitFrame, acts⟩).cm.frame_current = f2
    ∧ (workerStep infer ⟨set_input_frame (set_input_frame c f1) f2, .waitFrame, acts⟩).acts
        = acts ++ [.consumedFrame]
    ∧ (workerStep infer ⟨set_input_frame (set_input_frame c f1) f2, .waitFrame, acts⟩).cm.new_frame = false
    ∧ (let w := workerStep infer ⟨set_input_frame (set_input_frame c f1) f2, .waitFrame, acts⟩
       workerStep infer ⟨w.cm, .waitFrame, w.acts⟩ = ⟨w.cm, .waitFrame, w.acts⟩) := by
  refine ⟨rfl, ?_, ?_, ?_, ?_⟩
  · simp [workerStep, set_input_frame]
  · simp [workerStep, set_input_frame]
  · simp [workerStep, set_input_frame]
  · simp [workerStep, set_input_frame]

/-! ## Virtual output device teardown (`loopback_free`, videoio/loopback.cc lines 83-101)

The function issues `ioctl(VIDIOC_STREAMOFF)` and then `close(fdwr)`.
The embedding is parameterized by the return codes the kernel gives those
two calls (negative = failure) and records the function's return value
together with whether `close` was actually invoked on the handle. -/

/-- `loopback_free` (loopback.cc lines 83-101): first component is the
return value, second whether `close(fdwr)` was reached.  A failing
`VIDIOC_STREAMOFF` is reported and makes the function return -1 *before*
the `close` call; otherwise `close` runs and a failing close likewise
yields -1. -/
def loopback_free (streamoff_ret close_ret : Int) : Int × Bool :=
  if streamoff_ret < 0 then (-1, false)
  else if close_ret < 0 then (-1, true)
  else (0, true)

/-- C3 (counterexample): the claim says both teardown steps are attempted
unconditionally, so a stream-stop failure would not prevent the handle
from being closed.  On the code, a failing `VIDIOC_STREAMOFF`
(return -1) makes `loopback_free` return early: the handle is NOT
closed. -/
theorem loopback_free_streamoff_fail_skips_close :
    loopback_free (-1) 0 = (-1, false) ∧ ((-1 : Int), false).2 = false := by
  constructor
  · rfl
  · rfl

/-- C3 (amended): `loopback_free` stops streaming first and closes the
handle second, but the two steps are sequenced with an early return: the
handle is closed exactly when the stream-stop step succeeds.  Failures of
either step are reported via a -1 return value, and when both steps
succeed the function returns 0 with the handle closed. -/
theorem loopback_free_close_iff_streamoff_ok (s c : Int) :
    ((loopback_free s c).2 = true ↔ 0 ≤ s)
    ∧ (loopback_free s c).1 = (if s < 0 ∨ c < 0 then -1 else 0) := by
  constructor
  · constructor
    · intro h
      by_contra hs
      push_neg at hs
      simp [loopback_free, hs] at h
    · intro hs
      have : ¬ s < 0 := not_lt.mpr hs
      by_cases hc : c < 0 <;> simp [loopback_free, this, hc]
  · by_cases hs : s < 0
    · simp [loopback_free, hs]
    · by_cases hc : c < 0 <;> simp [loopback_free, hs, hc]

/-! ## Per-frame device write loop (main file lines 855-866)

```c
int framesize = raw.step[0]*raw.rows;
while (framesize > 0) {
    int ret = write(lbfd, raw[idx].data, framesize);
    if (ret <= 0) { perror(...); exit(1); }
    framesize -= ret;
}
```

The embedding takes the frame's bytes and the list of per-call `write`
return values (0 models a hard failure, i.e. `ret <= 0`); each successful
call with return `r` transmits the first `r` bytes of the buffer that was
passed — which is always `raw[idx].data`, the START of the frame, with
count `framesize` (the remaining total).  The result is the byte sequence
the device receives, or `none` when the loop calls `exit(1)` (or the
oracle of return values is exhausted). -/

def writeLoop (data : List Nat) : Nat → List Nat → Option (List Nat)
  | 0, _ => some []
  | _ + 1, [] => none
  | fs + 1, r :: rs =>
      if r = 0 then none
      else
        match writeLoop data (fs + 1 - r) rs with
        | some rest => some (data.take (min r (fs + 1)) ++ rest)
        | none => none

/-- C4: the retry loop never advances the buffer pointer, so after a
partial write it re-sends the frame's first bytes.  Frame
`[10,20,30,40]` (4 bytes) with the underlying write returning 2 twice:
the loop terminates having sent 4 bytes, but the device receives
`[10,20,10,20]` — bytes 10,20 twice, bytes 30,40 never — instead of the
frame itself.  A hard failure (`ret <= 0`) on a later retry is still
fatal (`none`). -/
theorem writeLoop_restarts_buffer :
    writeLoop [10, 20, 30, 40] 4 [2, 2] = some [10, 20, 10, 20]
    ∧ ([10, 20, 10, 20] : List Nat) ≠ [10, 20, 30, 40]
    ∧ writeLoop [10, 20, 30, 40] 4 [2, 0] = none := by
  refine ⟨rfl, by decide, rfl⟩

/-! ## Output geometry establishment (main file lines 588-596 and 683-699)

`--vg` parsing forces the virtual width even (`vidGeo->first +=
vidGeo->first % 2`, line 595).  In `main`, after opening the capture
device, the geometry the device reports back replaces the requested
capture geometry when they differ (lines 693-696), and when no `--vg`
was given the virtual geometry is taken from that capture geometry
(lines 697-699) — with no evenness adjustment.  The virtual geometry's
width is then used for `loopback_init` and the YUYV buffers. -/

structure Geo where
  w : Nat
  h : Nat
deriving DecidableEq

/-- The `--vg` argument handling (lines 588-596): width forced even. -/
def parseVirtualGeometry (w h : Nat) : Geo :=
  ⟨w + w % 2, h⟩

/-- Geometry establishment in `main` (lines 693-699): the capture geometry
becomes the device-reported one when they differ, and the virtual
geometry defaults to the (possibly device-reported) capture geometry when
`--vg` was not given.  Returns (capture geometry, virtual geometry). -/
def establishGeometry (vidGeo : Option Geo) (capGeo devGeo : Geo) : Geo × Geo :=
  let capGeo2 := if devGeo ≠ capGeo then devGeo else capGeo
  let vidGeo2 := vidGeo.getD capGeo2
  (capGeo2, vidGeo2)

/-- C5: the evenness invariant is NOT established on every path.  With no
`--vg` given, a requested capture geometry of 640x480 and a capture
device reporting 641x480 back, the virtual geometry used to open the
loopback device and size the packed-chroma buffers has width 641, which
is odd.  (The `--vg` path itself does force evenness.) -/
theorem establishGeometry_odd_width_from_device :
    (establishGeometry none ⟨640, 480⟩ ⟨641, 480⟩).2.w = 641
    ∧ ¬ 2 ∣ (641 : Nat)
    ∧ (∀ w h : Nat, 2 ∣ (parseVirtualGeometry w h).w) := by
  refine ⟨rfl, by decide, ?_⟩
  intro w h
  show 2 ∣ (w + w % 2)
  omega

/-! ## Frame-rate divisor and throttling (main file lines 688-692 and 776-793)

```c
fpsDivisor = 1;
if (maxFps > 0) { fpsDivisor = ((fps+maxFps-1) / maxFps); }
...
int skip = fpsDivisor;
while(true) {
    ... // empty-frame sanity check, then:
    if (skip < fpsDivisor) { skip++; continue; } else { skip = 1; }
    ... // process the frame
}
```

`throttleTick` is the skip-counter decision of one non-empty capture
tick: `(processed?, new skip)`.  `throttleRun` iterates it over `n`
ticks, returning the processed/skip decisions in order together with the
final counter (the counter starts at `fpsDivisor` itself, line 776). -/

/-- Frame-rate divisor (lines 688-692). -/
def fpsDivisor (fps maxFps : Nat) : Nat :=
  if 0 < maxFps then (fps + maxFps - 1) / maxFps else 1

/-- The throttling decision of one non-empty capture tick
(lines 788-793). -/
def throttleTick (d skip : Nat) : Bool × Nat :=
  if skip < d then (false, skip + 1) else (true, 1)

/-- `n` consecutive non-empty capture ticks of the throttling loop:
the list of per-tick decisions (`true` = processed) and the final skip
counter. -/
def throttleRun (d : Nat) : Nat → Nat → List Bool × Nat
  | skip, 0 => ([], skip)
  | skip, n + 1 =>
      let t := throttleTick d skip
      let r := throttleRun d t.2 n
      (t.1 :: r.1, r.2)

theorem throttleRun_skip_phase (d : Nat) :
    ∀ n s, s + n = d → throttleRun d s n = (List.replicate n false, d) := by
  intro n
  induction n with
  | zero => intro s hs; simp [throttleRun]; omega
  | succ n ih =>
    intro s hs
    have hlt : s < d := by omega
    simp only [throttleRun, throttleTick, if_pos hlt]
    rw [ih (s + 1) (by omega)]
    simp [List.replicate_succ]

theorem throttleRun_block (d : Nat) (hd : 1 ≤ d) :
    throttleRun d d d = (true :: List.replicate (d - 1) false, d) := by
  obtain ⟨m, rfl⟩ : ∃ m, d = m + 1 := ⟨d - 1, by omega⟩
  simp only [throttleRun, throttleTick]
  rw [if_neg (by omega)]
  rw [throttleRun_skip_phase (m + 1) m 1 (by omega)]
  simp

theorem throttleRun_append (d : Nat) :
    ∀ n m s, throttleRun d s (n + m) =
      ((throttleRun d s n).1 ++ (throttleRun d (throttleRun d s n).2 m).1,
       (throttleRun d (throttleRun d s n).2 m).2) := by
  intro n
  induction n with
  | zero => intro m s; simp [throttleRun]
  | succ n ih =>
    intro m s
    have h : n + 1 + m = (n + m) + 1 := by omega
    rw [h]
    simp only [throttleRun]
    rw [ih m (throttleTick d s).2]
    simp [throttleRun]

/-- Starting from `skip = d` (the loop's initial value), every block of
`d` consecutive non-empty ticks is processed-then-skipped:
`[true, false, ..., false]`. -/
theorem throttleRun_blocks (d k : Nat) (hd : 1 ≤ d) :
    throttleRun d d (d * k) =
      ((List.replicate k (true :: List.replicate (d - 1) false)).flatten, d) := by
  induction k with
  | zero => simp [throttleRun]
  | succ k ih =>
    have h : d * (k + 1) = d + d * k := by ring
    rw [h, throttleRun_append d d (d * k) d, throttleRun_block d hd]
    rw [ih]
    simp [List.replicate_succ]

/-- C8: for positive native fps and max fps, the code's divisor
`(fps + maxFps - 1) / maxFps` is `ceil(fps / maxFps)` — the least `j`
with `fps ≤ j * maxFps`; the throttling loop (counter started at the
divisor) processes exactly the first tick of every `d` consecutive
non-empty ticks and skips the other `d - 1`; natively 60 fps with
max 25 gives divisor 3, and over 9 consecutive ticks exactly 3 frames
are processed and 6 skipped. -/
theorem fps_divisor_throttle (fps maxFps d k : Nat)
    (hf : 0 < fps) (hm : 0 < maxFps) (hd : 1 ≤ d) :
    (fps ≤ fpsDivisor fps maxFps * maxFps
      ∧ (∀ j, fps ≤ j * maxFps → fpsDivisor fps maxFps ≤ j))
    ∧ throttleRun d d (d * k) =
        ((List.replicate k (true :: List.replicate (d - 1) false)).flatten, d)
    ∧ fpsDivisor 60 25 = 3
    ∧ (throttleRun 3 3 9).1.count true = 3
    ∧ (throttleRun 3 3 9).1.count false = 6 := by
  refine ⟨⟨?_, ?_⟩, throttleRun_blocks d k hd, rfl, by decide, by decide⟩
  · simp only [fpsDivisor, if_pos hm]
    have h := Nat.div_add_mod (fps + maxFps - 1) maxFps
    have h2 : (fps + maxFps - 1) % maxFps < maxFps := Nat.mod_lt _ hm
    have h3 : ((fps + maxFps - 1) / maxFps) * maxFps
        = maxFps * ((fps + maxFps - 1) / maxFps) := Nat.mul_comm _ _
    omega
  · intro j hj
    simp only [fpsDivisor, if_pos hm]
    have h3 : j * maxFps = maxFps * j := Nat.mul_comm j maxFps
    exact (Nat.div_le_iff_le_mul_add_pred hm).mpr (by omega)

/-- Witness for `fps_divisor_throttle` at fps 60, max 25, divisor 3,
three blocks of three ticks. -/
theorem fps_divisor_throttle_witness :
    (0 < 60 ∧ 0 < 25 ∧ 1 ≤ 3)
    ∧ ((60 ≤ fpsDivisor 60 25 * 25
        ∧ (∀ j, 60 ≤ j * 25 → fpsDivisor 60 25 ≤ j))
      ∧ throttleRun 3 3 (3 * 3) =
          ((List.replicate 3 (true :: List.replicate (3 - 1) false)).flatten, 3)
      ∧ fpsDivisor 60 25 = 3
      ∧ (throttleRun 3 3 9).1.count true = 3
      ∧ (throttleRun 3 3 9).1.count false = 6) :=
  ⟨⟨by decide, by decide, by decide⟩,
    fps_divisor_throttle 60 25 3 3 (by decide) (by decide) (by decide)⟩

/-- C10: the first non-empty captured frame is never skipped: the skip
counter is initialized to the divisor `d` itself (line 776), the guard
`skip < d` fails on the first tick, so the first decision of any run is
`processed`, whatever the divisor `d ≥ 1`. -/
theorem first_frame_processed (d n : Nat) (hd : 1 ≤ d) :
    ((throttleRun d d (n + 1)).1).head? = some true := by
  simp [throttleRun, throttleTick]

/-- Witness for `first_frame_processed` with divisor 3 over 9 ticks. -/
theorem first_frame_processed_witness :
    1 ≤ 3 ∧ ((throttleRun 3 3 (8 + 1)).1).head? = some true :=
  ⟨by decide, first_frame_processed 3 8 (by decide)⟩

/-! ## Packed-chroma conversion (`convert_rgb_to_yuyv`, main file lines 89-108)

The source first converts RGB to planar YUV through the external OpenCV
collaborators (`cv::cvtColor`, `cv::split`), then packs the planes with
the loop

```c
for (unsigned int i = 0; i < yuyv.total(); i += 2) {
    uint8_t u = (uint8_t)(((int)udata[i]+(int)udata[i+1])/2);
    uint8_t v = (uint8_t)(((int)vdata[i]+(int)vdata[i+1])/2);
    outdata[2*i+0] = ydata[i+0];
    outdata[2*i+1] = v;
    outdata[2*i+2] = ydata[i+1];
    outdata[2*i+3] = u;
}
```

The embedding takes the three planes as functions from pixel index to
byte (the external colour conversion stays opaque) and produces the
packed byte stream; `i` is the running pixel index (starting at 0 and
stepping by 2) and `pairs` the number of pixel pairs left
(`yuyv.total() / 2`; the loop relies on an even total, which the forced
even width provides).  Note the packing order: per pair the SECOND
chroma plane (`v`) follows the first luma and the FIRST chroma plane
(`u`) the second luma — `[luma0, chroma_b, luma1, chroma_a]` with
`chroma_a` the u plane and `chroma_b` the v plane. -/

def convert_rgb_to_yuyv (y u v : Nat → Nat) : Nat → Nat → List Nat
  | _, 0 => []
  | i, pairs + 1 =>
      y i :: (v i + v (i + 1)) / 2 :: y (i + 1) :: (u i + u (i + 1)) / 2 ::
        convert_rgb_to_yuyv y u v (i + 2) pairs

theorem yuyv_getElem (y u v : Nat → Nat) :
    ∀ p pairs i, p < pairs →
      (convert_rgb_to_yuyv y u v i pairs)[4 * p]? = some (y (i + 2 * p))
      ∧ (convert_rgb_to_yuyv y u v i pairs)[4 * p + 1]?
          = some ((v (i + 2 * p) + v (i + 2 * p + 1)) / 2)
      ∧ (convert_rgb_to_yuyv y u v i pairs)[4 * p + 2]? = some (y (i + 2 * p + 1))
      ∧ (convert_rgb_to_yuyv y u v i pairs)[4 * p + 3]?
          = some ((u (i + 2 * p) + u (i + 2 * p + 1)) / 2) := by
  intro p
  induction p with
  | zero =>
    intro pairs i hp
    cases pairs with
    | zero => omega
    | succ q => simp [convert_rgb_to_yuyv]
  | succ p ih =>
    intro pairs i hp
    cases pairs with
    | zero => omega
    | succ q =>
      have h := ih q (i + 2) (by omega)
      have e2 : i + 2 + 2 * p = i + 2 * (p + 1) := by ring
      rw [e2] at h
      have e0 : 4 * (p + 1) = 4 * p + 1 + 1 + 1 + 1 := by ring
      have e1 : 4 * (p + 1) + 1 = 4 * p + 1 + 1 + 1 + 1 + 1 := by ring
      have e4 : 4 * (p + 1) + 2 = 4 * p + 2 + 1 + 1 + 1 + 1 := by ring
      have e5 : 4 * (p + 1) + 3 = 4 * p + 3 + 1 + 1 + 1 + 1 := by ring
      simp only [convert_rgb_to_yuyv, e0, e1, e4, e5, List.getElem?_cons_succ]
      exact ⟨h.1, h.2.1, h.2.2.1, h.2.2.2⟩

/-- C9: the packing keeps luma per-pixel exactly (bytes `4p` and `4p+2`
of the output are exactly the pair's two luma samples), and each of the
two packed chroma bytes is a rounded (nearest-integer) average of the
pair's chroma samples: twice the stored byte differs from the exact sum
by at most 1, i.e. the stored byte is within half a unit of the true
average (the realized rounding is the C truncating `/2`, which rounds
halves down).  The pair is packed `[luma0, chroma_b, luma1, chroma_a]`
with `chroma_b` the averaged v plane and `chroma_a` the averaged u
plane; a one-pair (2×1) frame packs to two independently kept luma
values and one averaged chroma pair shared by both pixels. -/
theorem yuyv_pack_rounded (y u v : Nat → Nat) (pairs p : Nat) (hp : p < pairs) :
    (convert_rgb_to_yuyv y u v 0 pairs)[4 * p]? = some (y (2 * p))
    ∧ (convert_rgb_to_yuyv y u v 0 pairs)[4 * p + 2]? = some (y (2 * p + 1))
    ∧ (convert_rgb_to_yuyv y u v 0 pairs)[4 * p + 1]?
        = some ((v (2 * p) + v (2 * p + 1)) / 2)
    ∧ 2 * ((v (2 * p) + v (2 * p + 1)) / 2) ≤ v (2 * p) + v (2 * p + 1)
    ∧ v (2 * p) + v (2 * p + 1) ≤ 2 * ((v (2 * p) + v (2 * p + 1)) / 2) + 1
    ∧ (convert_rgb_to_yuyv y u v 0 pairs)[4 * p + 3]?
        = some ((u (2 * p) + u (2 * p + 1)) / 2)
    ∧ 2 * ((u (2 * p) + u (2 * p + 1)) / 2) ≤ u (2 * p) + u (2 * p + 1)
    ∧ u (2 * p) + u (2 * p + 1) ≤ 2 * ((u (2 * p) + u (2 * p + 1)) / 2) + 1
    ∧ convert_rgb_to_yuyv y u v 0 1 = [y 0, (v 0 + v 1) / 2, y 1, (u 0 + u 1) / 2] := by
  have h := yuyv_getElem y u v p pairs 0 hp
  simp only [Nat.zero_add] at h
  exact ⟨h.1, h.2.2.1, h.2.1, by omega, by omega, h.2.2.2, by omega, by omega, rfl⟩

/-- Witness for `yuyv_pack_rounded` on the identity planes, one pair. -/
theorem yuyv_pack_rounded_witness :
    (convert_rgb_to_yuyv (fun n => n) (fun n => n) (fun n => n) 0 1)[4 * 0]? = some 0
    ∧ (convert_rgb_to_yuyv (fun n => n) (fun n => n) (fun n => n) 0 1)[4 * 0 + 2]? = some 1
    ∧ (convert_rgb_to_yuyv (fun n => n) (fun n => n) (fun n => n) 0 1)[4 * 0 + 1]? = some 0
    ∧ 2 * 0 ≤ 0 + 1
    ∧ 0 + 1 ≤ 2 * 0 + 1
    ∧ (convert_rgb_to_yuyv (fun n => n) (fun n => n) (fun n => n) 0 1)[4 * 0 + 3]? = some 0
    ∧ 2 * 0 ≤ 0 + 1
    ∧ 0 + 1 ≤ 2 * 0 + 1
    ∧ convert_rgb_to_yuyv (fun n => n) (fun n => n) (fun n => n) 0 1 = [0, 0, 1, 0] :=
  yuyv_pack_rounded (fun n => n) (fun n => n) (fun n => n) 1 0 (by decide)

end Backscrub
